import Mathlib

/-!
# Verification of the VideoTranscriber path/batch/formatting core

A shallow embedding of the repository's Python core
(`src/core/video_converter.py`, `src/core/audio_transcriber.py`) and
proofs about it.

Modelling conventions:
* Python strings are `List Char` (named `Str` below); string literals are
  injected with `lit`.
* The filesystem is a list `fs : List Str` of the absolute paths that
  exist; `os.path.exists p` is membership of the absolutised form of `p`.
* Paths follow POSIX conventions (`os.path.isabs` = starts with `'/'`,
  `pathlib` joining inserts `'/'`); no path normalisation is performed,
  matching the source, which never normalises either.
* The process environment is captured by two parameters: `home`
  (`Path.home()`) and `cwd` (the current working directory).
* Python `float` seconds are modelled as exact rationals `ℚ`.
-/

namespace VT

/-- Python strings, modelled as lists of characters. -/
abbrev Str := List Char

/-- Inject a Lean string literal into the model. -/
def lit (s : String) : Str := s.toList

/-- Right-strip: drop trailing whitespace (the tail half of `str.strip()`). -/
def rstrip (s : Str) : Str := (s.reverse.dropWhile Char.isWhitespace).reverse

/-- Python `str.strip()`: drop leading and trailing whitespace. -/
def pyStrip (s : Str) : Str := rstrip (s.dropWhile Char.isWhitespace)

/-- Model of `os.path.isabs` on POSIX: the path starts with a slash. -/
def isabs : Str → Bool
  | [] => false
  | c :: _ => c == '/'

/-- Model of `pathlib` path joining `a / b` (rendered back to a string): an absolute
right operand replaces the left, an empty right operand is dropped,
otherwise a slash is inserted. -/
def pjoin (a b : Str) : Str :=
  if isabs b then b else if b = [] then a else a ++ '/' :: b

/-- Model of `str(Path(p).absolute())`: prefix the working directory onto a
relative path (no normalisation, exactly as `Path.absolute` behaves). -/
def pabsolute (cwd p : Str) : Str := if isabs p then p else pjoin cwd p

/-- Model of `os.path.exists` / `Path.exists`: membership of the absolutised path
in the set of existing paths. -/
def pexists (fs : List Str) (cwd p : Str) : Bool :=
  fs.contains (if isabs p then p else pjoin cwd p)

/-- Model of `PathUtils.get_common_folders()`: the well-known-folder table, in the
source's insertion order, keyed by shortcut. -/
def commonFolders (home : Str) : List (Str × Str) :=
  [ (lit "desktop", home ++ lit "/Desktop"),
    (lit "downloads", home ++ lit "/Downloads"),
    (lit "documents", home ++ lit "/Documents"),
    (lit "videos", home ++ lit "/Videos"),
    (lit "music", home ++ lit "/Music"),
    (lit "pictures", home ++ lit "/Pictures"),
    (lit "onedrive_desktop", home ++ lit "/OneDrive/Desktop") ]

/-- The shortcut loop of `PathUtils.resolve_path` (lines 52–58): for each
table entry whose key, followed by `/` or `\`, prefixes the token, join
the remainder onto the folder and return it if it exists; otherwise keep
scanning. -/
def shortcutScan (fs : List Str) (cwd inp : Str) : List (Str × Str) → Option Str
  | [] => none
  | (sc, fp) :: restFolders =>
    if (sc ++ ['/']).isPrefixOf inp || (sc ++ ['\\']).isPrefixOf inp then
      let resolved := pjoin fp (inp.drop (sc.length + 1))
      if pexists fs cwd resolved then some resolved
      else shortcutScan fs cwd inp restFolders
    else shortcutScan fs cwd inp restFolders

/-- The bare-filename loop of `PathUtils.resolve_path` (lines 62–65):
probe every well-known folder for `folder/token`, returning the first
that exists. -/
def bareScan (fs : List Str) (cwd inp : Str) : List (Str × Str) → Option Str
  | [] => none
  | (_, fp) :: restFolders =>
    let potential := pjoin fp inp
    if pexists fs cwd potential then some potential
    else bareScan fs cwd inp restFolders

/-- Model of `PathUtils.resolve_path`, translated clause for clause from
`src/core/video_converter.py` lines 32–73.  Note the source rebinds
`path_input` to its stripped form first, so every later return (including
the final fallback) yields the stripped token. -/
def resolve_path (fs : List Str) (home cwd pathInput : Str) : Str :=
  let inp := pyStrip pathInput
  if isabs inp then inp
  else
    match shortcutScan fs cwd inp (commonFolders home) with
    | some r => r
    | none =>
      let bare :=
        if ¬ inp.contains '/' && ¬ inp.contains '\\' then
          bareScan fs cwd inp (commonFolders home)
        else none
      match bare with
      | some r => r
      | none =>
        if pexists fs cwd inp then pabsolute cwd inp else inp

/-- The shortcut keys of the well-known-folder table (independent of the
home directory). -/
def folderKeys : List Str :=
  [lit "desktop", lit "downloads", lit "documents", lit "videos",
   lit "music", lit "pictures", lit "onedrive_desktop"]

theorem map_fst_commonFolders (home : Str) :
    (commonFolders home).map Prod.fst = folderKeys := rfl

theorem isPrefixOf_append_self (x r : Str) : x.isPrefixOf (x ++ r) = true := by
  induction x with
  | nil => simp [List.isPrefixOf]
  | cons a as ih => simp [List.isPrefixOf, ih]

theorem isPrefixOf_append_of_not {x y : Str} (r : Str)
    (h1 : x.isPrefixOf y = false) (h2 : y.isPrefixOf x = false) :
    x.isPrefixOf (y ++ r) = false := by
  induction x generalizing y with
  | nil => simp [List.isPrefixOf] at h1
  | cons a as ih =>
    cases y with
    | nil => simp [List.isPrefixOf] at h2
    | cons b bs =>
      simp only [List.isPrefixOf, List.cons_append, Bool.and_eq_false_iff,
        beq_eq_false_iff_ne, ne_eq] at h1 h2 ⊢
      rcases h1 with h1 | h1
      · exact Or.inl h1
      · rcases h2 with h2 | h2
        · exact Or.inl fun hab => h2 hab.symm
        · exact Or.inr (ih h1 h2)

theorem dropWhile_append_eq_self {p : Char → Bool} {a : Str} (b : Str)
    (h : a.dropWhile p = a) (ha : a ≠ []) :
    (a ++ b).dropWhile p = a ++ b := by
  cases a with
  | nil => exact absurd rfl ha
  | cons x xs =>
    rw [List.dropWhile_append, h]
    rfl

theorem rstrip_reverse_fixed {s : Str} (h : rstrip s = s) :
    s.reverse.dropWhile Char.isWhitespace = s.reverse := by
  have := congrArg List.reverse h
  rwa [rstrip, List.reverse_reverse] at this

/-- Heads-up facts about the concrete key table, checked by evaluation:
keys are non-empty, not absolute, whitespace-free at both ends, and no
key followed by a separator is a prefix of a different key followed by a
separator. -/
theorem folderKeys_facts :
    (∀ k ∈ folderKeys, k ≠ [] ∧ isabs k = false ∧
      k.dropWhile Char.isWhitespace = k) ∧
    (∀ k1 ∈ folderKeys, ∀ k2 ∈ folderKeys, ∀ s1 ∈ ['/', '\\'], ∀ s2 ∈ ['/', '\\'],
      k1 ≠ k2 ∨ s1 ≠ s2 → (k1 ++ [s1]).isPrefixOf (k2 ++ [s2]) = false) := by
  decide

theorem commonFolders_key_inj (home : Str) {q1 q2 : Str × Str}
    (h1 : q1 ∈ commonFolders home) (h2 : q2 ∈ commonFolders home)
    (hk : q1.1 = q2.1) : q1 = q2 := by
  simp only [commonFolders, List.mem_cons, List.not_mem_nil, or_false] at h1 h2
  rcases h1 with rfl | rfl | rfl | rfl | rfl | rfl | rfl <;>
    rcases h2 with rfl | rfl | rfl | rfl | rfl | rfl | rfl <;>
    first
      | rfl
      | (dsimp only at hk; exact absurd hk (by decide))

theorem shortcutScan_eq_none (fs : List Str) (cwd inp : Str)
    (folders : List (Str × Str))
    (h : ∀ q ∈ folders,
      ((q.1 ++ ['/']).isPrefixOf inp || (q.1 ++ ['\\']).isPrefixOf inp) = true →
      pexists fs cwd (pjoin q.2 (inp.drop (q.1.length + 1))) = false) :
    shortcutScan fs cwd inp folders = none := by
  induction folders with
  | nil => rfl
  | cons q rest ih =>
    obtain ⟨sc, fp⟩ := q
    by_cases hm : ((sc ++ ['/']).isPrefixOf inp || (sc ++ ['\\']).isPrefixOf inp) = true
    · have hpe := h (sc, fp) (List.mem_cons_self _ _) hm
      simp only [shortcutScan, hm, if_true, hpe, if_false, Bool.false_eq_true]
      exact ih fun q hq => h q (List.mem_cons_of_mem _ hq)
    · rw [Bool.not_eq_true] at hm
      simp only [shortcutScan, hm, Bool.false_eq_true, if_false]
      exact ih fun q hq => h q (List.mem_cons_of_mem _ hq)

theorem shortcutScan_eq_of_unique (fs : List Str) (cwd inp : Str)
    (folders : List (Str × Str)) (sc fp : Str)
    (hmem : (sc, fp) ∈ folders)
    (honly : ∀ q ∈ folders,
      ((q.1 ++ ['/']).isPrefixOf inp || (q.1 ++ ['\\']).isPrefixOf inp) = true →
      q = (sc, fp))
    (hmatch : ((sc ++ ['/']).isPrefixOf inp || (sc ++ ['\\']).isPrefixOf inp) = true) :
    shortcutScan fs cwd inp folders =
      if pexists fs cwd (pjoin fp (inp.drop (sc.length + 1))) then
        some (pjoin fp (inp.drop (sc.length + 1)))
      else none := by
  induction folders with
  | nil => cases hmem
  | cons q rest ih =>
    obtain ⟨a, b⟩ := q
    by_cases hq : (((a, b).1 ++ ['/']).isPrefixOf inp ||
        ((a, b).1 ++ ['\\']).isPrefixOf inp) = true
    · have hqe := honly (a, b) (List.mem_cons_self _ _) hq
      rw [Prod.mk.injEq] at hqe
      obtain ⟨rfl, rfl⟩ := hqe
      by_cases hpe : pexists fs cwd (pjoin b (inp.drop (a.length + 1))) = true
      · simp only [shortcutScan, hq, if_true, hpe]
      · rw [Bool.not_eq_true] at hpe
        simp only [shortcutScan, hq, if_true, hpe, Bool.false_eq_true, if_false]
        rw [shortcutScan_eq_none]
        intro q2 hq2 hm2
        have hq2e := honly q2 (List.mem_cons_of_mem _ hq2) hm2
        rw [hq2e]
        exact hpe
    · have hmem' : (sc, fp) ∈ rest := by
        rcases List.mem_cons.1 hmem with heq | hmem'
        · rw [← heq] at hq
          exact absurd hmatch hq
        · exact hmem'
      rw [Bool.not_eq_true] at hq
      simp only [shortcutScan, hq, Bool.false_eq_true, if_false]
      exact ih hmem' fun q hqm hm => honly q (List.mem_cons_of_mem _ hqm) hm

example : resolve_path [] (lit "/home/u") (lit "/cwd") (lit "/a/b.mp4")
    = lit "/a/b.mp4" := by decide

example : resolve_path [lit "/home/u/Desktop/x.mp4"] (lit "/home/u") (lit "/cwd")
    (lit "desktop/x.mp4") = lit "/home/u/Desktop/x.mp4" := by decide

example : resolve_path [] (lit "/home/u") (lit "/cwd")
    (lit "desktop/x.mp4") = lit "desktop/x.mp4" := by decide

example : resolve_path [lit "/home/u/Videos/x.mp4"] (lit "/home/u") (lit "/cwd")
    (lit "x.mp4") = lit "/home/u/Videos/x.mp4" := by decide

example : resolve_path [lit "/cwd/rel/x.mp4"] (lit "/home/u") (lit "/cwd")
    (lit "rel/x.mp4") = lit "/cwd/rel/x.mp4" := by decide

/-- Claim C8, counterexample: `"/a "` (an absolute path per `os.path.isabs`,
naming the file `"a "` in the root directory) is not returned unchanged:
`resolve_path` strips the token first and returns `"/a"`. -/
theorem resolve_path_not_id_on_absolute :
    isabs (lit "/a ") = true ∧
    resolve_path [] (lit "/home/u") (lit "/cwd") (lit "/a ") ≠ lit "/a " := by
  decide

/-- Claim C8, amended: whenever the whitespace-stripped token is an absolute
path, `resolve_path` returns the stripped token; in particular a token that
carries no surrounding whitespace and is absolute is returned unchanged,
character for character. -/
theorem resolve_path_absolute_id (fs : List Str) (home cwd t : Str)
    (h : isabs (pyStrip t) = true) :
    resolve_path fs home cwd t = pyStrip t ∧
    (pyStrip t = t → resolve_path fs home cwd t = t) := by
  have hmain : resolve_path fs home cwd t = pyStrip t := by
    simp [resolve_path, h]
  exact ⟨hmain, fun he => by rw [hmain, he]⟩

/-- Witness for `resolve_path_absolute_id` at the token `"/v/a.mp4"`. -/
theorem resolve_path_absolute_id_witness :
    resolve_path [] (lit "/h") (lit "/c") (lit "/v/a.mp4") = pyStrip (lit "/v/a.mp4") ∧
    (pyStrip (lit "/v/a.mp4") = lit "/v/a.mp4" →
      resolve_path [] (lit "/h") (lit "/c") (lit "/v/a.mp4") = lit "/v/a.mp4") :=
  resolve_path_absolute_id [] (lit "/h") (lit "/c") (lit "/v/a.mp4") (by decide)

/-- Claim C1, counterexample: the shortcut token `"desktop/x "` — of the
claimed form, with remainder `"x "`, a legal POSIX filename — where the
joined path `"/home/u/Desktop/x "` exists on disk, resolves to neither
that joined path (refuting the claimed `if and only if`) nor the original
token unchanged (refuting the claimed fall-through result): the source
strips the token before the shortcut loop and returns `"desktop/x"`. -/
theorem resolve_path_shortcut_strips :
    pexists [lit "/home/u/Desktop/x "] (lit "/c")
      ((lit "/home/u" ++ lit "/Desktop") ++ '/' :: lit "x ") = true ∧
    resolve_path [lit "/home/u/Desktop/x "] (lit "/home/u") (lit "/c")
      (lit "desktop/x ") ≠ (lit "/home/u" ++ lit "/Desktop") ++ '/' :: lit "x " ∧
    resolve_path [lit "/home/u/Desktop/x "] (lit "/home/u") (lit "/c")
      (lit "desktop/x ") ≠ lit "desktop/x " ∧
    resolve_path [lit "/home/u/Desktop/x "] (lit "/home/u") (lit "/c")
      (lit "desktop/x ") = lit "desktop/x" := by
  decide

/-- Claim C1, amended: for a token `<shortcut>/rest` (or `<shortcut>\rest`)
whose shortcut is a key of the well-known-folder table and whose remainder
carries no trailing whitespace (the source strips the token before
matching, so a whitespace-tailed remainder is rewritten first), resolution
returns the folder-joined path exactly when that joined path exists on
disk; when it does not exist, resolution falls through (the bare-filename
probe cannot apply, since the token contains a separator) to the
cwd-relative check, and if that also fails the original token is returned
unchanged. -/
theorem resolve_path_shortcut (fs : List Str) (home cwd sc fp rest : Str) (sep : Char)
    (hmem : (sc, fp) ∈ commonFolders home)
    (hsep : sep = '/' ∨ sep = '\\')
    (hne : rest ≠ [])
    (habs : isabs rest = false)
    (hclean : rstrip rest = rest) :
    (pexists fs cwd (fp ++ '/' :: rest) = true →
      resolve_path fs home cwd (sc ++ sep :: rest) = fp ++ '/' :: rest) ∧
    (pexists fs cwd (fp ++ '/' :: rest) = false →
      resolve_path fs home cwd (sc ++ sep :: rest) =
        if pexists fs cwd (sc ++ sep :: rest) then pjoin cwd (sc ++ sep :: rest)
        else sc ++ sep :: rest) := by
  have hkey : sc ∈ folderKeys := by
    have h := List.mem_map_of_mem Prod.fst hmem
    rwa [map_fst_commonFolders] at h
  obtain ⟨hfacts, hpairs⟩ := folderKeys_facts
  obtain ⟨hsc_ne, hsc_abs, hsc_drop⟩ := hfacts sc hkey
  have hdrop : (sc ++ sep :: rest).dropWhile Char.isWhitespace = sc ++ sep :: rest :=
    dropWhile_append_eq_self _ hsc_drop hsc_ne
  have hrev : (sc ++ sep :: rest).reverse = rest.reverse ++ (sep :: sc.reverse) := by
    simp
  have hrstrip : rstrip (sc ++ sep :: rest) = sc ++ sep :: rest := by
    unfold rstrip
    rw [hrev, dropWhile_append_eq_self _ (rstrip_reverse_fixed hclean)
      (by simpa using hne), ← hrev, List.reverse_reverse]
  have hstrip : pyStrip (sc ++ sep :: rest) = sc ++ sep :: rest := by
    unfold pyStrip
    rw [hdrop]
    exact hrstrip
  have htokabs : isabs (sc ++ sep :: rest) = false := by
    cases sc with
    | nil => exact absurd rfl hsc_ne
    | cons c cs => exact hsc_abs
  have hinp : sc ++ sep :: rest = (sc ++ [sep]) ++ rest := by simp
  have hmatch : ((sc ++ ['/']).isPrefixOf (sc ++ sep :: rest) ||
      (sc ++ ['\\']).isPrefixOf (sc ++ sep :: rest)) = true := by
    rcases hsep with rfl | rfl <;> rw [hinp] <;> simp [isPrefixOf_append_self]
  have hsepmem : sep ∈ ['/', '\\'] := by
    rcases hsep with rfl | rfl <;> simp
  have honly : ∀ q ∈ commonFolders home,
      ((q.1 ++ ['/']).isPrefixOf (sc ++ sep :: rest) ||
       (q.1 ++ ['\\']).isPrefixOf (sc ++ sep :: rest)) = true → q = (sc, fp) := by
    intro q hq hcond
    have hqkey : q.1 ∈ folderKeys := by
      have h := List.mem_map_of_mem Prod.fst hq
      rwa [map_fst_commonFolders] at h
    by_cases hqs : q.1 = sc
    · exact commonFolders_key_inj home hq hmem hqs
    · exfalso
      have h1 : (q.1 ++ ['/']).isPrefixOf ((sc ++ [sep]) ++ rest) = false :=
        isPrefixOf_append_of_not rest
          (hpairs q.1 hqkey sc hkey '/' (by simp) sep hsepmem (Or.inl hqs))
          (hpairs sc hkey q.1 hqkey sep hsepmem '/' (by simp)
            (Or.inl fun h => hqs h.symm))
      have h2 : (q.1 ++ ['\\']).isPrefixOf ((sc ++ [sep]) ++ rest) = false :=
        isPrefixOf_append_of_not rest
          (hpairs q.1 hqkey sc hkey '\\' (by simp) sep hsepmem (Or.inl hqs))
          (hpairs sc hkey q.1 hqkey sep hsepmem '\\' (by simp)
            (Or.inl fun h => hqs h.symm))
      rw [hinp, h1, h2] at hcond
      simp at hcond
  have hdropn : (sc ++ sep :: rest).drop (sc.length + 1) = rest := by
    rw [hinp]
    have hlen : (sc ++ [sep]).length = sc.length + 1 := by simp
    rw [← hlen, List.drop_left]
  have hjoin : pjoin fp rest = fp ++ '/' :: rest := by
    unfold pjoin
    rw [habs]
    simp [hne]
  have hscan : shortcutScan fs cwd (sc ++ sep :: rest) (commonFolders home) =
      if pexists fs cwd (fp ++ '/' :: rest) then some (fp ++ '/' :: rest)
      else none := by
    rw [shortcutScan_eq_of_unique fs cwd _ (commonFolders home) sc fp hmem honly hmatch,
      hdropn, hjoin]
  constructor
  · intro hpe
    simp [resolve_path, hstrip, htokabs, hscan, hpe]
  · intro hpe
    rcases hsep with rfl | rfl <;>
      simp [resolve_path, hstrip, htokabs, hscan, hpe, pabsolute]

/-- Witness for `resolve_path_shortcut`: with `x.mp4` present in the
well-known Desktop folder, `"desktop/x.mp4"` resolves to the joined path;
the hypotheses are discharged at this concrete input. -/
theorem resolve_path_shortcut_witness :
    resolve_path [lit "/home/u/Desktop/x.mp4"] (lit "/home/u") (lit "/c")
      (lit "desktop/x.mp4") = lit "/home/u/Desktop/x.mp4" := by
  have h := (resolve_path_shortcut [lit "/home/u/Desktop/x.mp4"] (lit "/home/u")
      (lit "/c") (lit "desktop") (lit "/home/u" ++ lit "/Desktop") (lit "x.mp4") '/'
      (by decide) (Or.inl rfl) (by decide) (by decide) (by decide)).1 (by decide)
  exact h

/-! ## `pathlib` name manipulation -/

/-- The final component of a path: the part after the last slash. -/
def baseName (p : Str) : Str := (p.reverse.takeWhile (fun c => c != '/')).reverse

/-- The directory part of a path: `none` when there is no slash (the
`pathlib` parent is `.`), otherwise everything before the last slash
(possibly empty, for paths directly under the root). -/
def dirPart (p : Str) : Option Str :=
  if p.contains '/' then
    some ((p.reverse.dropWhile (fun c => c != '/')).drop 1).reverse
  else none

/-- Model of `str(Path(p).parent / child)` for a relative, non-empty `child`:
`Path(name).parent` is `.` and joining onto `.` drops it. -/
def parentJoin (p child : Str) : Str :=
  match dirPart p with
  | none => child
  | some [] => '/' :: child
  | some d => d ++ '/' :: child

/-- Model of `PurePath.stem`: the final component without its last suffix.  CPython
takes the last dot at index `i` and splits only when `0 < i < len - 1`. -/
def stemOf (p : Str) : Str :=
  let nm := baseName p
  let ext := nm.reverse.takeWhile (fun c => c != '.')
  if ext.length = nm.length then nm
  else
    let i := nm.length - ext.length - 1
    if 0 < i ∧ i < nm.length - 1 then nm.take i else nm

/-- Model of `PurePath.suffix` (dot included): `name[i:]` for the last dot at index
`i` when `0 < i < len - 1`, else empty. -/
def suffixOf (p : Str) : Str :=
  let nm := baseName p
  let ext := nm.reverse.takeWhile (fun c => c != '.')
  if ext.length = nm.length then []
  else
    let i := nm.length - ext.length - 1
    if 0 < i ∧ i < nm.length - 1 then nm.drop i else []

/-- Python `str.lower()` (ASCII range, which covers every extension the
source compares against). -/
def lowerStr (s : Str) : Str := s.map Char.toLower

example : stemOf (lit "/home/u/clip.mp4") = lit "clip" := by decide
example : stemOf (lit "archive.tar.gz") = lit "archive.tar" := by decide
example : stemOf (lit ".bashrc") = lit ".bashrc" := by decide
example : suffixOf (lit "/d/Clip.MP4") = lit ".MP4" := by decide
example : parentJoin (lit "/home/u/clip.mp4") (lit "clip.mp3") = lit "/home/u/clip.mp3" := by
  decide

theorem takeWhile_neq_append {c0 : Char} {a : Str} (b : Str)
    (h : ∀ c ∈ a, (c != c0) = true) :
    ((a ++ c0 :: b).takeWhile (fun c => c != c0)) = a := by
  induction a with
  | nil => simp
  | cons x xs ih =>
    have hx := h x (List.mem_cons_self _ _)
    simp only [List.cons_append, List.takeWhile_cons, hx, if_true]
    rw [ih fun c hc => h c (List.mem_cons_of_mem _ hc)]

theorem dropWhile_neq_append {c0 : Char} {a : Str} (b : Str)
    (h : ∀ c ∈ a, (c != c0) = true) :
    ((a ++ c0 :: b).dropWhile (fun c => c != c0)) = c0 :: b := by
  induction a with
  | nil => simp
  | cons x xs ih =>
    have hx := h x (List.mem_cons_self _ _)
    simp only [List.cons_append, List.dropWhile_cons, hx, if_true]
    exact ih fun c hc => h c (List.mem_cons_of_mem _ hc)

theorem baseName_of_split {dir nmext : Str} (h : ('/' : Char) ∉ nmext) :
    baseName (dir ++ '/' :: nmext) = nmext := by
  unfold baseName
  have hrev : (dir ++ '/' :: nmext).reverse = nmext.reverse ++ '/' :: dir.reverse := by
    simp
  rw [hrev, takeWhile_neq_append _ (fun c hc => by
    simp only [bne_iff_ne, ne_eq]
    exact fun hce => h (hce ▸ List.mem_reverse.1 hc)), List.reverse_reverse]

theorem dirPart_of_split {dir nmext : Str} (h : ('/' : Char) ∉ nmext) :
    dirPart (dir ++ '/' :: nmext) = some dir := by
  unfold dirPart
  have hc : (dir ++ '/' :: nmext).contains '/' = true := by simp
  rw [if_pos hc]
  have hrev : (dir ++ '/' :: nmext).reverse = nmext.reverse ++ '/' :: dir.reverse := by
    simp
  rw [hrev, dropWhile_neq_append _ (fun c hc => by
    simp only [bne_iff_ne, ne_eq]
    exact fun hce => h (hce ▸ List.mem_reverse.1 hc))]
  simp

theorem parentJoin_of_split {dir nmext : Str} (h : ('/' : Char) ∉ nmext)
    (child : Str) :
    parentJoin (dir ++ '/' :: nmext) child = dir ++ '/' :: child := by
  unfold parentJoin
  rw [dirPart_of_split h]
  cases dir <;> rfl

theorem stemOf_split {dir nm ext : Str} (hsl : ('/' : Char) ∉ nm ++ '.' :: ext)
    (hnm : nm ≠ []) (hext : ext ≠ []) (hdot : ('.' : Char) ∉ ext) :
    stemOf (dir ++ '/' :: (nm ++ '.' :: ext)) = nm := by
  simp only [stemOf, baseName_of_split hsl]
  have hrev : (nm ++ '.' :: ext).reverse = ext.reverse ++ '.' :: nm.reverse := by
    simp
  have htw : ((nm ++ '.' :: ext).reverse).takeWhile (fun c => c != '.') = ext.reverse := by
    rw [hrev, takeWhile_neq_append _ (fun c hc => by
      simp only [bne_iff_ne, ne_eq]
      exact fun hce => hdot (hce ▸ List.mem_reverse.1 hc))]
  rw [htw]
  have hlen : (nm ++ '.' :: ext).length = nm.length + ext.length + 1 := by
    simp
    omega
  have hnm0 : 0 < nm.length := List.length_pos.2 hnm
  have hext0 : 0 < ext.length := List.length_pos.2 hext
  rw [List.length_reverse, hlen]
  have hne : ¬ ext.length = nm.length + ext.length + 1 := by omega
  rw [if_neg hne]
  have hi : nm.length + ext.length + 1 - ext.length - 1 = nm.length := by omega
  rw [hi]
  have hcond : 0 < nm.length ∧ nm.length < nm.length + ext.length + 1 - 1 := by omega
  rw [if_pos hcond]
  exact List.take_left nm ('.' :: ext)

/-! ## The extraction and transcription operations

Side effects are recorded as an explicit event trace; the two external
collaborators (the media library's clip open/write and the speech model)
are oracles that either succeed or raise with a given message, exactly as
the `try`/`except` structure of the source dictates. -/

/-- Observable side effects of a single operation, in order. -/
inductive Event
  | openClip (path : Str)
  | writeAudio (path : Str)
  | closeClip
  | loadModel
  | transcribeCall (path : Str)
  | mkdirParents (path : Str)
  | writeFile (path : Str) (content : Str)
  | printSaved (path : Str)
  deriving DecidableEq

/-- Python exceptions relevant to the source: `FileNotFoundError` and the
generic `Exception` used for wrapping. -/
inductive PyErr
  | fileNotFound (msg : Str)
  | exc (msg : Str)
  deriving DecidableEq

instance {ε α : Type} [DecidableEq ε] [DecidableEq α] : DecidableEq (Except ε α) :=
  fun a b =>
  match a, b with
  | .error e1, .error e2 =>
    match decEq e1 e2 with
    | .isTrue h => .isTrue (h ▸ rfl)
    | .isFalse h => .isFalse fun he => h (by cases he; rfl)
  | .error _, .ok _ => .isFalse fun he => by cases he
  | .ok _, .error _ => .isFalse fun he => by cases he
  | .ok a1, .ok a2 =>
    match decEq a1 a2 with
    | .isTrue h => .isTrue (h ▸ rfl)
    | .isFalse h => .isFalse fun he => h (by cases he; rfl)

/-- Oracle for the media library: whether `VideoFileClip(...)` and
`video.audio.write_audiofile(...)` raise, and with what message. -/
structure ExtractOracle where
  openErr : Option Str
  writeErr : Option Str
  deriving DecidableEq

/-- Model of `VideoConverter.extract_audio` (`src/core/video_converter.py` lines
164–216), translated clause for clause. The event trace records the
source's statement order; note that the source calls `video.close()` only
on the success path — the `except` clause re-raises without closing. -/
def extract_audio (fs : List Str) (home cwd : Str) (orc : ExtractOracle)
    (video_path : Str) (audioPathArg : Option Str) (audio_format : Str) :
    Except PyErr Str × List Event :=
  let resolved := resolve_path fs home cwd video_path
  if ¬ pexists fs cwd resolved then
    (.error (.fileNotFound (lit "Video file not found: " ++ video_path ++
      lit " (resolved to: " ++ resolved ++ lit ")")), [])
  else
    let audio_path :=
      match audioPathArg with
      | none => parentJoin resolved (stemOf resolved ++ '.' :: audio_format)
      | some ap => resolve_path fs home cwd ap
    match orc.openErr with
    | some e =>
      (.error (.exc (lit "Error during audio extraction: " ++ e)),
       [.openClip resolved])
    | none =>
      match orc.writeErr with
      | some e =>
        (.error (.exc (lit "Error during audio extraction: " ++ e)),
         [.openClip resolved, .writeAudio audio_path])
      | none =>
        (.ok audio_path, [.openClip resolved, .writeAudio audio_path, .closeClip])

/-- The speech model's raw result: text, timed segments, detected
language.  Segment offsets are seconds, modelled as exact rationals. -/
structure Segment where
  start : ℚ
  stop : ℚ
  text : Str
  deriving DecidableEq

structure ModelResult where
  text : Str
  segments : List Segment
  language : Str
  deriving DecidableEq

/-- The transcription result after `transcribe_audio` appends its
metadata block. -/
structure TransResult where
  text : Str
  segments : List Segment
  language : Str
  audio_file : Str
  model_used : Str
  transcription_date : Str
  deriving DecidableEq

/-- Model of `AudioTranscriber.transcribe_audio` (`src/core/audio_transcriber.py`
lines 51–102): existence check first, then model load, then the
transcription call inside `try`, whose failure is wrapped into a generic
exception; on success the metadata block is attached. -/
def transcribe_audio (fs : List Str) (cwd model_size now : Str)
    (transcribeErr : Option Str) (modelOut : ModelResult) (audio_path : Str) :
    Except PyErr TransResult × List Event :=
  if ¬ pexists fs cwd audio_path then
    (.error (.fileNotFound (lit "Audio file not found: " ++ audio_path)), [])
  else
    match transcribeErr with
    | some e =>
      (.error (.exc (lit "Error during transcription: " ++ e)),
       [.loadModel, .transcribeCall audio_path])
    | none =>
      (.ok { text := modelOut.text, segments := modelOut.segments,
             language := modelOut.language, audio_file := audio_path,
             model_used := model_size, transcription_date := now },
       [.loadModel, .transcribeCall audio_path])

/-- Claim C4, code evidence: at a concrete input where the audio write
fails, `extract_audio` re-raises the wrapped error with a trace that
opens the clip and attempts the write but never closes the clip — the
media-decoding handle leaks on this failure path, contrary to the spec's
release requirement. -/
theorem extract_audio_no_close_on_write_failure :
    extract_audio [lit "/v/a.mp4"] (lit "/h") (lit "/c")
        { openErr := none, writeErr := some (lit "boom") }
        (lit "/v/a.mp4") none (lit "mp3") =
      (.error (.exc (lit "Error during audio extraction: boom")),
       [.openClip (lit "/v/a.mp4"), .writeAudio (lit "/v/a.mp3")]) ∧
    Event.closeClip ∉ (extract_audio [lit "/v/a.mp4"] (lit "/h") (lit "/c")
        { openErr := none, writeErr := some (lit "boom") }
        (lit "/v/a.mp4") none (lit "mp3")).2 ∧
    Event.closeClip ∈ (extract_audio [lit "/v/a.mp4"] (lit "/h") (lit "/c")
        { openErr := none, writeErr := none }
        (lit "/v/a.mp4") none (lit "mp3")).2 := by
  decide

/-- Claim C5: both operations raise `FileNotFoundError` — before invoking
any underlying call (the event trace is empty) — exactly when the
(resolved) input path does not exist; when it exists, no file-not-found
error is ever produced. -/
theorem notfound_precondition (fs : List Str) (home cwd : Str)
    (orc : ExtractOracle) (vp : Str) (apArg : Option Str) (fmt : Str)
    (model_size now : Str) (terr : Option Str) (mo : ModelResult) (ap : Str) :
    (pexists fs cwd (resolve_path fs home cwd vp) = false →
      (extract_audio fs home cwd orc vp apArg fmt).1 =
        .error (.fileNotFound (lit "Video file not found: " ++ vp ++
          lit " (resolved to: " ++ resolve_path fs home cwd vp ++ lit ")")) ∧
      (extract_audio fs home cwd orc vp apArg fmt).2 = []) ∧
    (pexists fs cwd (resolve_path fs home cwd vp) = true →
      ∀ m, (extract_audio fs home cwd orc vp apArg fmt).1 ≠
        .error (.fileNotFound m)) ∧
    (pexists fs cwd ap = false →
      (transcribe_audio fs cwd model_size now terr mo ap).1 =
        .error (.fileNotFound (lit "Audio file not found: " ++ ap)) ∧
      (transcribe_audio fs cwd model_size now terr mo ap).2 = []) ∧
    (pexists fs cwd ap = true →
      ∀ m, (transcribe_audio fs cwd model_size now terr mo ap).1 ≠
        .error (.fileNotFound m)) := by
  refine ⟨fun hne => ?_, fun hex m => ?_, fun hne => ?_, fun hex m => ?_⟩
  · simp [extract_audio, hne]
  · rcases horc : orc.openErr with _ | e
    · rcases horc2 : orc.writeErr with _ | e2 <;>
        simp [extract_audio, hex, horc, horc2]
    · simp [extract_audio, hex, horc]
  · simp [transcribe_audio, hne]
  · rcases hterr : terr with _ | e <;> simp [transcribe_audio, hex, hterr]

/-- Witness for `notfound_precondition`: a missing input produces the
file-not-found error with an empty trace, and an existing input never
does. -/
theorem notfound_precondition_witness :
    ((extract_audio [] (lit "/h") (lit "/c") ⟨none, none⟩
        (lit "/v/a.mp4") none (lit "mp3")).1 =
      .error (.fileNotFound (lit "Video file not found: " ++ lit "/v/a.mp4" ++
        lit " (resolved to: " ++ resolve_path [] (lit "/h") (lit "/c") (lit "/v/a.mp4") ++
        lit ")")) ∧
     (extract_audio [] (lit "/h") (lit "/c") ⟨none, none⟩
        (lit "/v/a.mp4") none (lit "mp3")).2 = []) ∧
    (∀ m, (transcribe_audio [lit "/a.mp3"] (lit "/c") (lit "base") (lit "d")
        none ⟨lit "hi", [], lit "en"⟩ (lit "/a.mp3")).1 ≠
      .error (.fileNotFound m)) :=
  ⟨(notfound_precondition [] (lit "/h") (lit "/c") ⟨none, none⟩ (lit "/v/a.mp4")
      none (lit "mp3") (lit "base") (lit "d") none ⟨lit "hi", [], lit "en"⟩
      (lit "/a.mp3")).1 (by decide),
   (notfound_precondition [lit "/a.mp3"] (lit "/h") (lit "/c") ⟨none, none⟩
      (lit "/v/a.mp4") none (lit "mp3") (lit "base") (lit "d") none
      ⟨lit "hi", [], lit "en"⟩ (lit "/a.mp3")).2.2.2 (by decide)⟩

/-- Claim C7: with no explicit output path, `extract_audio` derives the
output by replacing the resolved input's extension with the target audio
format, in the same directory: the successful result is
`dir/name.<fmt>` for an input resolving to `dir/name.<ext>`. -/
theorem extract_audio_default_output (fs : List Str) (home cwd : Str)
    (vp dir nm ext fmt : Str)
    (hres : resolve_path fs home cwd vp = dir ++ '/' :: (nm ++ '.' :: ext))
    (hnm : nm ≠ []) (hext : ext ≠ [])
    (hsl : ('/' : Char) ∉ nm ++ '.' :: ext) (hdot : ('.' : Char) ∉ ext)
    (hex : pexists fs cwd (dir ++ '/' :: (nm ++ '.' :: ext)) = true) :
    (extract_audio fs home cwd ⟨none, none⟩ vp none fmt).1 =
      .ok (dir ++ '/' :: (nm ++ '.' :: fmt)) := by
  have hderived : parentJoin (dir ++ '/' :: (nm ++ '.' :: ext))
      (stemOf (dir ++ '/' :: (nm ++ '.' :: ext)) ++ '.' :: fmt) =
      dir ++ '/' :: (nm ++ '.' :: fmt) := by
    rw [stemOf_split hsl hnm hext hdot, parentJoin_of_split hsl]
  simp [extract_audio, hres, hex, hderived]

/-- Witness for `extract_audio_default_output`: input `"clip.mp4"` on the
desktop with the default `"mp3"` format yields `"clip.mp3"` beside it. -/
theorem extract_audio_default_output_witness :
    (extract_audio [lit "/home/u/Desktop/clip.mp4"] (lit "/home/u") (lit "/c")
        ⟨none, none⟩ (lit "desktop/clip.mp4") none (lit "mp3")).1 =
      .ok (lit "/home/u/Desktop" ++ '/' :: (lit "clip" ++ '.' :: lit "mp3")) := by
  have h := extract_audio_default_output [lit "/home/u/Desktop/clip.mp4"]
    (lit "/home/u") (lit "/c") (lit "desktop/clip.mp4") (lit "/home/u/Desktop")
    (lit "clip") (lit "mp4") (lit "mp3") (by decide) (by decide) (by decide)
    (by decide) (by decide) (by decide)
  exact h

/-- Claim C9, counterexample: the wrapped extraction error does not attach
the input/output paths: at a concrete failing input the re-raised message
is exactly `"Error during audio extraction: boom"`, and neither the input
path nor the output path occurs in it as a substring. -/
theorem extract_audio_wrap_lacks_paths :
    (extract_audio [lit "/v/a.mp4"] (lit "/h") (lit "/c")
        ⟨none, some (lit "boom")⟩ (lit "/v/a.mp4") none (lit "mp3")).1 =
      .error (.exc (lit "Error during audio extraction: boom")) ∧
    ¬ (lit "/v/a.mp4" <:+: lit "Error during audio extraction: boom") ∧
    ¬ (lit "/v/a.mp3" <:+: lit "Error during audio extraction: boom") := by
  decide

/-- Claim C9, amended: a failure `e` of the underlying open or write call
is wrapped exactly once into a generic exception whose message is
`"Error during audio extraction: "` followed by the original message (no
path context attached), and the trace shows a single attempt — no
retry. -/
theorem extract_audio_wraps_once (fs : List Str) (home cwd : Str)
    (vp : Str) (apArg : Option Str) (fmt e : Str)
    (hex : pexists fs cwd (resolve_path fs home cwd vp) = true) :
    (extract_audio fs home cwd ⟨none, some e⟩ vp apArg fmt).1 =
      .error (.exc (lit "Error during audio extraction: " ++ e)) ∧
    (extract_audio fs home cwd ⟨some e, none⟩ vp apArg fmt).1 =
      .error (.exc (lit "Error during audio extraction: " ++ e)) ∧
    ((extract_audio fs home cwd ⟨none, some e⟩ vp apArg fmt).2.countP
      (fun ev => match ev with | .writeAudio _ => true | _ => false)) = 1 ∧
    ((extract_audio fs home cwd ⟨some e, none⟩ vp apArg fmt).2.countP
      (fun ev => match ev with | .openClip _ => true | _ => false)) = 1 := by
  refine ⟨?_, ?_, ?_, ?_⟩ <;>
    simp [extract_audio, hex, List.countP_cons, List.countP_nil]

/-- Witness for `extract_audio_wraps_once` at a concrete failing write. -/
theorem extract_audio_wraps_once_witness :
    (extract_audio [lit "/v/a.mp4"] (lit "/h") (lit "/c")
        ⟨none, some (lit "boom")⟩ (lit "/v/a.mp4") none (lit "mp3")).1 =
      .error (.exc (lit "Error during audio extraction: " ++ lit "boom")) ∧
    (extract_audio [lit "/v/a.mp4"] (lit "/h") (lit "/c")
        ⟨some (lit "boom"), none⟩ (lit "/v/a.mp4") none (lit "mp3")).1 =
      .error (.exc (lit "Error during audio extraction: " ++ lit "boom")) ∧
    ((extract_audio [lit "/v/a.mp4"] (lit "/h") (lit "/c")
        ⟨none, some (lit "boom")⟩ (lit "/v/a.mp4") none (lit "mp3")).2.countP
      (fun ev => match ev with | .writeAudio _ => true | _ => false)) = 1 ∧
    ((extract_audio [lit "/v/a.mp4"] (lit "/h") (lit "/c")
        ⟨some (lit "boom"), none⟩ (lit "/v/a.mp4") none (lit "mp3")).2.countP
      (fun ev => match ev with | .openClip _ => true | _ => false)) = 1 :=
  extract_audio_wraps_once [lit "/v/a.mp4"] (lit "/h") (lit "/c")
    (lit "/v/a.mp4") none (lit "mp3") (lit "boom") (by decide)

/-! ## Timestamp conversion

`float` seconds are modelled as exact rationals; Python `int()` truncates
toward zero, `//` is floor division and `%` the matching modulus. -/

/-- Python `int()` on a real value: truncation toward zero. -/
def pyint (q : ℚ) : ℤ := if q < 0 then -⌊-q⌋ else ⌊q⌋

/-- Python float `%` (for a positive modulus). -/
def pymod (a b : ℚ) : ℚ := a - b * ⌊a / b⌋

/-- Python float `//`. -/
def pyfloordiv (a b : ℚ) : ℚ := (⌊a / b⌋ : ℚ)

/-- Zero-padding as in a Python format spec such as 02d or 03d, as it behaves on the non-negative values
produced here. -/
def padInt (w : Nat) (n : ℤ) : Str :=
  let s := (toString n).toList
  if s.length < w then List.replicate (w - s.length) '0' ++ s else s

/-- Model of `AudioTranscriber._seconds_to_srt_time` (lines 163–169). -/
def seconds_to_srt_time (seconds : ℚ) : Str :=
  let hours := pyint (pyfloordiv seconds 3600)
  let minutes := pyint (pyfloordiv (pymod seconds 3600) 60)
  let secs := pyint (pymod seconds 60)
  let millisecs := pyint (pymod seconds 1 * 1000)
  padInt 2 hours ++ ':' :: (padInt 2 minutes ++ ':' ::
    (padInt 2 secs ++ ',' :: padInt 3 millisecs))

/-- Model of `AudioTranscriber._seconds_to_vtt_time` (lines 171–177): identical
except for the millisecond separator. -/
def seconds_to_vtt_time (seconds : ℚ) : Str :=
  let hours := pyint (pyfloordiv seconds 3600)
  let minutes := pyint (pyfloordiv (pymod seconds 3600) 60)
  let secs := pyint (pymod seconds 60)
  let millisecs := pyint (pymod seconds 1 * 1000)
  padInt 2 hours ++ ':' :: (padInt 2 minutes ++ ':' ::
    (padInt 2 secs ++ '.' :: padInt 3 millisecs))

theorem floor_div_intCast (s : ℚ) (n : ℤ) (hn : 0 < n) :
    ⌊s / (n : ℚ)⌋ = ⌊s⌋ / n := by
  have hnq : (0 : ℚ) < (n : ℚ) := by exact_mod_cast hn
  apply le_antisymm
  · rw [Int.le_ediv_iff_mul_le hn, Int.le_floor]
    push_cast
    calc (⌊s / (n : ℚ)⌋ : ℚ) * (n : ℚ)
        ≤ (s / (n : ℚ)) * (n : ℚ) :=
          mul_le_mul_of_nonneg_right (Int.floor_le _) hnq.le
      _ = s := div_mul_cancel₀ s hnq.ne'
  · rw [Int.le_floor]
    rw [le_div_iff₀ hnq]
    calc ((⌊s⌋ / n : ℤ) : ℚ) * (n : ℚ)
        = (((⌊s⌋ / n) * n : ℤ) : ℚ) := by push_cast; ring
      _ ≤ ((⌊s⌋ : ℤ) : ℚ) := by
          exact_mod_cast Int.ediv_mul_le ⌊s⌋ hn.ne'
      _ ≤ s := Int.floor_le s

theorem pyint_intCast (m : ℤ) (hm : 0 ≤ m) : pyint (m : ℚ) = m := by
  unfold pyint
  rw [if_neg (by exact_mod_cast not_lt.2 hm), Int.floor_intCast]

theorem pyint_floor (q : ℚ) (h : 0 ≤ q) : pyint q = ⌊q⌋ :=
  if_neg (not_lt.2 h)

theorem pymod_nonneg (a b : ℚ) (hb : 0 < b) : 0 ≤ pymod a b := by
  have h := Int.sub_floor_div_mul_nonneg a hb
  unfold pymod
  calc (0 : ℚ) ≤ a - ⌊a / b⌋ * b := h
    _ = a - b * ⌊a / b⌋ := by ring

theorem pymod_lt (a b : ℚ) (hb : 0 < b) : pymod a b < b := by
  have h := Int.sub_floor_div_mul_lt a hb
  unfold pymod
  calc a - b * ⌊a / b⌋ = a - ⌊a / b⌋ * b := by ring
    _ < b := h

theorem pymod_one (s : ℚ) : pymod s 1 = s - ⌊s⌋ := by
  unfold pymod
  rw [div_one, one_mul]

/-- The hour/minute/second fields as the code computes them, reduced to
integer division and modulus on `⌊s⌋`, and the millisecond field as the
truncated (floored) scaled fractional part. -/
theorem srt_fields_eq (s : ℚ) (hs : 0 ≤ s) :
    pyint (pyfloordiv s 3600) = ⌊s⌋ / 3600 ∧
    pyint (pyfloordiv (pymod s 3600) 60) = ⌊s⌋ % 3600 / 60 ∧
    pyint (pymod s 60) = ⌊s⌋ % 60 ∧
    pyint (pymod s 1 * 1000) = ⌊(s - ⌊s⌋) * 1000⌋ := by
  have h3600 : (3600 : ℚ) = ((3600 : ℤ) : ℚ) := by norm_num
  have h60 : (60 : ℚ) = ((60 : ℤ) : ℚ) := by norm_num
  have hfloor0 : 0 ≤ ⌊s⌋ := Int.floor_nonneg.2 hs
  refine ⟨?_, ?_, ?_, ?_⟩
  · unfold pyfloordiv
    rw [h3600, floor_div_intCast s 3600 (by norm_num),
      pyint_intCast _ (Int.ediv_nonneg hfloor0 (by norm_num))]
  · unfold pyfloordiv
    have hm := pymod_nonneg s 3600 (by norm_num)
    rw [h60, floor_div_intCast _ 60 (by norm_num),
      pyint_intCast _ (Int.ediv_nonneg (Int.floor_nonneg.2 hm) (by norm_num))]
    unfold pymod
    rw [h3600, floor_div_intCast s 3600 (by norm_num)]
    rw [show s - ((3600:ℤ):ℚ) * ((⌊s⌋ / 3600 : ℤ) : ℚ) =
      s - ((3600 * (⌊s⌋ / 3600) : ℤ) : ℚ) by push_cast; ring]
    rw [Int.floor_sub_int, Int.emod_def]
  · have hm := pymod_nonneg s 60 (by norm_num)
    rw [pyint_floor _ hm]
    unfold pymod
    rw [h60, floor_div_intCast s 60 (by norm_num)]
    rw [show s - ((60:ℤ):ℚ) * ((⌊s⌋ / 60 : ℤ) : ℚ) =
      s - ((60 * (⌊s⌋ / 60) : ℤ) : ℚ) by push_cast; ring]
    rw [Int.floor_sub_int, Int.emod_def]
  · have hm := pymod_nonneg s 1 (by norm_num)
    rw [pyint_floor _ (mul_nonneg hm (by norm_num)), pymod_one]

/-- Reassemble the SRT time string from computed field values. -/
theorem srt_time_eval (s : ℚ) (h mnt sec ms : ℤ)
    (e1 : pyint (pyfloordiv s 3600) = h)
    (e2 : pyint (pyfloordiv (pymod s 3600) 60) = mnt)
    (e3 : pyint (pymod s 60) = sec)
    (e4 : pyint (pymod s 1 * 1000) = ms) :
    seconds_to_srt_time s = padInt 2 h ++ ':' :: (padInt 2 mnt ++ ':' ::
      (padInt 2 sec ++ ',' :: padInt 3 ms)) := by
  simp only [seconds_to_srt_time]
  rw [e1, e2, e3, e4]

/-- Reassemble the VTT time string from computed field values. -/
theorem vtt_time_eval (s : ℚ) (h mnt sec ms : ℤ)
    (e1 : pyint (pyfloordiv s 3600) = h)
    (e2 : pyint (pyfloordiv (pymod s 3600) 60) = mnt)
    (e3 : pyint (pymod s 60) = sec)
    (e4 : pyint (pymod s 1 * 1000) = ms) :
    seconds_to_vtt_time s = padInt 2 h ++ ':' :: (padInt 2 mnt ++ ':' ::
      (padInt 2 sec ++ '.' :: padInt 3 ms)) := by
  simp only [seconds_to_vtt_time]
  rw [e1, e2, e3, e4]

theorem fields_3599_9999 :
    pyint (pyfloordiv (35999999/10000 : ℚ) 3600) = 0 ∧
    pyint (pyfloordiv (pymod (35999999/10000 : ℚ) 3600) 60) = 59 ∧
    pyint (pymod (35999999/10000 : ℚ) 60) = 59 ∧
    pyint (pymod (35999999/10000 : ℚ) 1 * 1000) = 999 := by
  have f1 : ⌊(35999999/10000 : ℚ) / 3600⌋ = 0 := by norm_num
  have f2 : pymod (35999999/10000 : ℚ) 3600 = 35999999/10000 := by
    unfold pymod
    rw [f1]
    norm_num
  have f3 : ⌊(35999999/10000 : ℚ) / 60⌋ = 59 := by norm_num
  have f4 : pymod (35999999/10000 : ℚ) 60 = 599999/10000 := by
    unfold pymod
    rw [f3]
    norm_num
  have f5 : ⌊(35999999/10000 : ℚ) / 1⌋ = 3599 := by norm_num
  have f6 : pymod (35999999/10000 : ℚ) 1 * 1000 = 9999/10 := by
    unfold pymod
    rw [f5]
    norm_num
  refine ⟨?_, ?_, ?_, ?_⟩
  · unfold pyfloordiv
    rw [f1]
    exact pyint_intCast 0 le_rfl
  · unfold pyfloordiv
    rw [f2, f3]
    exact pyint_intCast 59 (by norm_num)
  · rw [f4]
    unfold pyint
    rw [if_neg (by norm_num)]
    norm_num
  · rw [f6]
    unfold pyint
    rw [if_neg (by norm_num)]
    norm_num

theorem fields_12_9996 :
    pyint (pyfloordiv (129996/10000 : ℚ) 3600) = 0 ∧
    pyint (pyfloordiv (pymod (129996/10000 : ℚ) 3600) 60) = 0 ∧
    pyint (pymod (129996/10000 : ℚ) 60) = 12 ∧
    pyint (pymod (129996/10000 : ℚ) 1 * 1000) = 999 := by
  have f1 : ⌊(129996/10000 : ℚ) / 3600⌋ = 0 := by norm_num
  have f2 : pymod (129996/10000 : ℚ) 3600 = 129996/10000 := by
    unfold pymod
    rw [f1]
    norm_num
  have f3 : ⌊(129996/10000 : ℚ) / 60⌋ = 0 := by norm_num
  have f4 : pymod (129996/10000 : ℚ) 60 = 129996/10000 := by
    unfold pymod
    rw [f3]
    norm_num
  have f5 : ⌊(129996/10000 : ℚ) / 1⌋ = 12 := by norm_num
  have f6 : pymod (129996/10000 : ℚ) 1 * 1000 = 9996/10 := by
    unfold pymod
    rw [f5]
    norm_num
  refine ⟨?_, ?_, ?_, ?_⟩
  · unfold pyfloordiv
    rw [f1]
    exact pyint_intCast 0 le_rfl
  · unfold pyfloordiv
    rw [f2, f3]
    exact pyint_intCast 0 le_rfl
  · rw [f4]
    unfold pyint
    rw [if_neg (by norm_num)]
    norm_num
  · rw [f6]
    unfold pyint
    rw [if_neg (by norm_num)]
    norm_num

/-- Claim C3: timestamp conversion truncates, never rounds: the fields are
`⌊s⌋ / 3600`, `⌊s⌋ % 3600 / 60`, `⌊s⌋ % 60` and `⌊frac·1000⌋`; the
millisecond field under-approximates the exact scaled fractional part by
less than one unit and never reaches 1000; and concretely `3599.9999 s`
formats as `"00:59:59,999"` (not `"01:00:00,000"`) while a segment ending
at `12.9996 s` truncates to `,999`, not `13.000`. -/
theorem timestamp_truncation (s : ℚ) (hs : 0 ≤ s) :
    (pyint (pyfloordiv s 3600) = ⌊s⌋ / 3600 ∧
     pyint (pyfloordiv (pymod s 3600) 60) = ⌊s⌋ % 3600 / 60 ∧
     pyint (pymod s 60) = ⌊s⌋ % 60 ∧
     pyint (pymod s 1 * 1000) = ⌊(s - ⌊s⌋) * 1000⌋) ∧
    ((pyint (pymod s 1 * 1000) : ℚ) ≤ (s - ⌊s⌋) * 1000 ∧
     (s - ⌊s⌋) * 1000 < (pyint (pymod s 1 * 1000) : ℚ) + 1 ∧
     pyint (pymod s 1 * 1000) ≤ 999) ∧
    (seconds_to_srt_time (35999999/10000 : ℚ) = lit "00:59:59,999" ∧
     seconds_to_srt_time (35999999/10000 : ℚ) ≠ lit "01:00:00,000" ∧
     seconds_to_vtt_time (35999999/10000 : ℚ) = lit "00:59:59.999" ∧
     seconds_to_srt_time (129996/10000 : ℚ) = lit "00:00:12,999") := by
  obtain ⟨h1, h2, h3, h4⟩ := srt_fields_eq s hs
  have hfrac1 : (s - ⌊s⌋) * 1000 < 1000 := by
    have hlt := Int.lt_floor_add_one s
    linarith
  obtain ⟨g1, g2, g3, g4⟩ := fields_3599_9999
  obtain ⟨k1, k2, k3, k4⟩ := fields_12_9996
  refine ⟨⟨h1, h2, h3, h4⟩, ⟨?_, ?_, ?_⟩, ?_, ?_, ?_, ?_⟩
  · rw [h4]
    exact_mod_cast Int.floor_le _
  · rw [h4]
    exact Int.lt_floor_add_one _
  · rw [h4]
    have hlt : ⌊(s - ⌊s⌋) * 1000⌋ < 1000 := Int.floor_lt.2 (by exact_mod_cast hfrac1)
    omega
  · rw [srt_time_eval _ 0 59 59 999 g1 g2 g3 g4]
    decide
  · rw [srt_time_eval _ 0 59 59 999 g1 g2 g3 g4]
    decide
  · rw [vtt_time_eval _ 0 59 59 999 g1 g2 g3 g4]
    decide
  · rw [srt_time_eval _ 0 0 12 999 k1 k2 k3 k4]
    decide

/-- Witness for `timestamp_truncation` at `s = 3/2`. -/
theorem timestamp_truncation_witness :
    (pyint (pyfloordiv (3/2 : ℚ) 3600) = ⌊(3/2 : ℚ)⌋ / 3600 ∧
     pyint (pyfloordiv (pymod (3/2 : ℚ) 3600) 60) = ⌊(3/2 : ℚ)⌋ % 3600 / 60 ∧
     pyint (pymod (3/2 : ℚ) 60) = ⌊(3/2 : ℚ)⌋ % 60 ∧
     pyint (pymod (3/2 : ℚ) 1 * 1000) = ⌊((3/2 : ℚ) - ⌊(3/2 : ℚ)⌋) * 1000⌋) ∧
    ((pyint (pymod (3/2 : ℚ) 1 * 1000) : ℚ) ≤ ((3/2 : ℚ) - ⌊(3/2 : ℚ)⌋) * 1000 ∧
     ((3/2 : ℚ) - ⌊(3/2 : ℚ)⌋) * 1000 <
       (pyint (pymod (3/2 : ℚ) 1 * 1000) : ℚ) + 1 ∧
     pyint (pymod (3/2 : ℚ) 1 * 1000) ≤ 999) ∧
    (seconds_to_srt_time (35999999/10000 : ℚ) = lit "00:59:59,999" ∧
     seconds_to_srt_time (35999999/10000 : ℚ) ≠ lit "01:00:00,000" ∧
     seconds_to_vtt_time (35999999/10000 : ℚ) = lit "00:59:59.999" ∧
     seconds_to_srt_time (129996/10000 : ℚ) = lit "00:00:12,999") :=
  timestamp_truncation (3/2 : ℚ) (by norm_num)

/-! ## `save_transcription` and the output encodings -/

def natToStr (n : ℕ) : Str := (toString n).toList

/-- The banner line `"=" * 50`. -/
def eqLine : Str := List.replicate 50 '='

/-- The separator line `"-" * 50`. -/
def dashLine : Str := List.replicate 50 '-'

/-- The bytes written by the `txt` branch (lines 117–131), as one
concatenated string. -/
def txtContent (r : TransResult) : Str :=
  eqLine ++ lit "\n" ++ lit "AUDIO TRANSCRIPTION\n" ++ eqLine ++ lit "\n\n" ++
  lit "Audio File: " ++ r.audio_file ++ lit "\n" ++
  lit "Model: " ++ r.model_used ++ lit "\n" ++
  lit "Language: " ++ r.language ++ lit "\n" ++
  lit "Date: " ++ r.transcription_date ++ lit "\n" ++
  lit "\n" ++ dashLine ++ lit "\n" ++ lit "TRANSCRIPTION:\n" ++ dashLine ++
  lit "\n\n" ++ r.text ++ lit "\n\n" ++ eqLine ++ lit "\n"

/-- The bytes written by the `srt` branch (lines 138–146): blocks for
`enumerate(result["segments"], 1)`. -/
def srtBlocks : ℕ → List Segment → Str
  | _, [] => []
  | i, seg :: rest =>
    natToStr i ++ lit "\n" ++
    seconds_to_srt_time seg.start ++ lit " --> " ++
    seconds_to_srt_time seg.stop ++ lit "\n" ++
    pyStrip seg.text ++ lit "\n\n" ++ srtBlocks (i + 1) rest

def srtContent (segs : List Segment) : Str := srtBlocks 1 segs

/-- The bytes written by the `vtt` branch (lines 148–156). -/
def vttBlocks : List Segment → Str
  | [] => []
  | seg :: rest =>
    seconds_to_vtt_time seg.start ++ lit " --> " ++
    seconds_to_vtt_time seg.stop ++ lit "\n" ++
    pyStrip seg.text ++ lit "\n\n" ++ vttBlocks rest

def vttContent (segs : List Segment) : Str := lit "WEBVTT\n\n" ++ vttBlocks segs

/-- Model of `Path(output_path).parent` rendered as a string (for the mkdir
event). -/
def parentOf (p : Str) : Str :=
  match dirPart p with
  | none => lit "."
  | some [] => lit "/"
  | some d => d

/-- Model of `AudioTranscriber.save_transcription` (lines 104–161): create the
output path's parents, then dispatch on the lower-cased format tag; a
branch writes its bytes (the per-branch `f.write` calls concatenated, via
the third-party `json.dump` for `json`), an unrecognized tag writes
nothing; any write failure is wrapped; finally success is printed. -/
def save_transcription (jsonDump : TransResult → Str) (writeErr : Option Str)
    (result : TransResult) (output_path format_type : Str) :
    Except PyErr Unit × List Event :=
  let mk : Event := .mkdirParents (parentOf output_path)
  let contentOpt : Option Str :=
    if lowerStr format_type = lit "txt" then some (txtContent result)
    else if lowerStr format_type = lit "json" then some (jsonDump result)
    else if lowerStr format_type = lit "srt" then some (srtContent result.segments)
    else if lowerStr format_type = lit "vtt" then some (vttContent result.segments)
    else none
  match contentOpt with
  | some content =>
    match writeErr with
    | some e =>
      (.error (.exc (lit "Error saving transcription: " ++ e)),
       [mk, .writeFile output_path content])
    | none =>
      (.ok (), [mk, .writeFile output_path content, .printSaved output_path])
  | none => (.ok (), [mk, .printSaved output_path])

/-- Claim C10: an unrecognized format tag (case-insensitively outside
`txt`/`json`/`srt`/`vtt`) makes `save_transcription` return normally with
no error and no file written: the trace is exactly the parent-directory
creation followed by the success report. -/
theorem save_transcription_unknown_format (jsonDump : TransResult → Str)
    (writeErr : Option Str) (r : TransResult) (out fmtT : Str)
    (h : lowerStr fmtT ∉ [lit "txt", lit "json", lit "srt", lit "vtt"]) :
    save_transcription jsonDump writeErr r out fmtT =
      (.ok (), [.mkdirParents (parentOf out), .printSaved out]) := by
  simp only [List.mem_cons, List.not_mem_nil, or_false, not_or] at h
  obtain ⟨h1, h2, h3, h4⟩ := h
  simp [save_transcription, h1, h2, h3, h4]

/-- Witness for `save_transcription_unknown_format` at the tag `"PDF"`. -/
theorem save_transcription_unknown_format_witness :
    save_transcription (fun _ => lit "dump")
        none
        { text := lit "hi", segments := [], language := lit "en",
          audio_file := lit "/a.mp3", model_used := lit "base",
          transcription_date := lit "2025" }
        (lit "/out/tr.pdf") (lit "PDF") =
      (.ok (), [.mkdirParents (parentOf (lit "/out/tr.pdf")),
                .printSaved (lit "/out/tr.pdf")]) :=
  save_transcription_unknown_format (fun _ => lit "dump") none
    { text := lit "hi", segments := [], language := lit "en",
      audio_file := lit "/a.mp3", model_used := lit "base",
      transcription_date := lit "2025" }
    (lit "/out/tr.pdf") (lit "PDF") (by decide)

/-- The timestamp line shape shared by the two subtitle encodings,
parameterised by the millisecond separator — this is the spec's
description of the block contents. -/
def timeString (sepc : Char) (s : ℚ) : Str :=
  padInt 2 (pyint (pyfloordiv s 3600)) ++ ':' ::
    (padInt 2 (pyint (pyfloordiv (pymod s 3600) 60)) ++ ':' ::
      (padInt 2 (pyint (pymod s 60)) ++ sepc :: padInt 3 (pyint (pymod s 1 * 1000))))

theorem srtBlocks_flatten (segs : List Segment) : ∀ i : ℕ,
    srtBlocks i segs = ((segs.enumFrom i).map (fun p =>
      natToStr p.1 ++ lit "\n" ++ timeString ',' p.2.start ++ lit " --> " ++
      timeString ',' p.2.stop ++ lit "\n" ++ pyStrip p.2.text ++
      lit "\n\n")).flatten := by
  induction segs with
  | nil => intro i; rfl
  | cons sg rest ih =>
    intro i
    simp only [srtBlocks, List.enumFrom_cons, List.map_cons, List.flatten_cons, ih (i + 1)]
    simp [seconds_to_srt_time, timeString]

theorem vttBlocks_flatten (segs : List Segment) :
    vttBlocks segs = (segs.map (fun sg =>
      timeString '.' sg.start ++ lit " --> " ++ timeString '.' sg.stop ++
      lit "\n" ++ pyStrip sg.text ++ lit "\n\n")).flatten := by
  induction segs with
  | nil => rfl
  | cons sg rest ih =>
    simp only [vttBlocks, List.map_cons, List.flatten_cons, ih]
    simp [seconds_to_vtt_time, timeString]

/-- Claim C6: the `srt` output is one block per segment in segment order —
a 1-based index line, a `start --> stop` timestamp line, the stripped
segment text, a blank line — and the `vtt` output is identical except for
the leading `WEBVTT` header line, the missing index line, and `.` in
place of `,` as the millisecond separator of each timestamp (both
timestamp strings share the `timeString` shape, differing only in that
separator character). -/
theorem srt_vtt_format_relation :
    (∀ segs : List Segment, srtContent segs = ((segs.enumFrom 1).map (fun p =>
      natToStr p.1 ++ lit "\n" ++ timeString ',' p.2.start ++ lit " --> " ++
      timeString ',' p.2.stop ++ lit "\n" ++ pyStrip p.2.text ++
      lit "\n\n")).flatten) ∧
    (∀ segs : List Segment, vttContent segs = lit "WEBVTT\n\n" ++
      (segs.map (fun sg =>
        timeString '.' sg.start ++ lit " --> " ++ timeString '.' sg.stop ++
        lit "\n" ++ pyStrip sg.text ++ lit "\n\n")).flatten) ∧
    (∀ s : ℚ, seconds_to_srt_time s = timeString ',' s ∧
      seconds_to_vtt_time s = timeString '.' s) ∧
    (∀ jd we r out, (save_transcription jd we r out (lit "srt")).2.head? =
        some (.mkdirParents (parentOf out)) ∧
      ((save_transcription jd we r out (lit "srt")).2.map
        (fun ev => match ev with
          | .writeFile _ c => some c
          | _ => none)).reduceOption = [srtContent r.segments] ∧
      ((save_transcription jd we r out (lit "vtt")).2.map
        (fun ev => match ev with
          | .writeFile _ c => some c
          | _ => none)).reduceOption = [vttContent r.segments]) := by
  refine ⟨fun segs => srtBlocks_flatten segs 1, fun segs => ?_,
    fun s => ⟨rfl, rfl⟩, fun jd we r out => ⟨?_, ?_, ?_⟩⟩
  · simp only [vttContent, vttBlocks_flatten]
  · cases we <;> rfl
  · cases we <;> rfl
  · cases we <;> rfl

/-! ## Batch processing -/

/-- The video extension allow-list of `batch_convert` (line 282). -/
def video_extensions : List Str :=
  [lit ".mp4", lit ".avi", lit ".mov", lit ".mkv", lit ".wmv", lit ".flv",
   lit ".webm"]

/-- The audio extension allow-list of `batch_transcribe` (line 229). -/
def audio_extensions : List Str :=
  [lit ".mp3", lit ".wav", lit ".m4a", lit ".flac", lit ".aac", lit ".ogg",
   lit ".wma"]

/-- Model of the filter test `Path(file).suffix.lower() in extensions`. -/
def matchesExt (exts : List Str) (file : Str) : Bool :=
  exts.contains (lowerStr (suffixOf file))

/-- The per-file loop of `VideoConverter.batch_convert` (lines 289–298):
derive the output name from the stem, call `extract_audio`, collect the
result, and on any exception log and continue. -/
def convertLoop (fs : List Str) (home cwd : Str) (orc : Str → ExtractOracle)
    (outDir fmt : Str) : List Str → List Str
  | [] => []
  | vf :: rest =>
    let audio_path := pjoin outDir (stemOf vf ++ '.' :: fmt)
    match (extract_audio fs home cwd (orc vf) vf (some audio_path) fmt).1 with
    | .ok r => r :: convertLoop fs home cwd orc outDir fmt rest
    | .error _ => convertLoop fs home cwd orc outDir fmt rest

/-- Model of `VideoConverter.batch_convert` (lines 258–300): directory existence
check, default output directory, suffix filter over the listing, then the
tolerant per-file loop. -/
def batch_convert (fs : List Str) (home cwd : Str) (orc : Str → ExtractOracle)
    (listing : List Str) (video_directory : Str) (outDirArg : Option Str)
    (audio_format : Str) : Except PyErr (List Str) :=
  if ¬ pexists fs cwd video_directory then
    .error (.fileNotFound (lit "Directory not found: " ++ video_directory))
  else
    let output_directory := outDirArg.getD video_directory
    let video_files :=
      (listing.filter (matchesExt video_extensions)).map (pjoin video_directory)
    .ok (convertLoop fs home cwd orc output_directory audio_format video_files)

/-- Model of `AudioTranscriber.transcribe_and_save` (lines 179–204):
derive the output path when none is given, transcribe, save, and return
the output path. -/
def transcribe_and_save (fs : List Str) (cwd model_size now : Str)
    (terr : Option Str) (mo : ModelResult) (jsonDump : TransResult → Str)
    (writeErr : Option Str) (audio_path : Str) (outPathArg : Option Str)
    (fmt : Str) : Except PyErr Str :=
  let output_path := outPathArg.getD
    (parentJoin audio_path (stemOf audio_path ++ lit "_transcription." ++ fmt))
  match (transcribe_audio fs cwd model_size now terr mo audio_path).1 with
  | .error e => .error e
  | .ok r =>
    match (save_transcription jsonDump writeErr r output_path fmt).1 with
    | .error e => .error e
    | .ok _ => .ok output_path

/-- The per-file loop of `AudioTranscriber.batch_transcribe`
(lines 239–250). -/
def transcribeLoop (fs : List Str) (cwd model_size now : Str)
    (terr : Str → Option Str) (mo : Str → ModelResult)
    (jsonDump : TransResult → Str) (writeErr : Str → Option Str)
    (outDir fmt : Str) : List Str → List Str
  | [] => []
  | af :: rest =>
    let output_path := pjoin outDir (stemOf af ++ lit "_transcription." ++ fmt)
    match transcribe_and_save fs cwd model_size now (terr af) (mo af) jsonDump
        (writeErr af) af (some output_path) fmt with
    | .ok r => r :: transcribeLoop fs cwd model_size now terr mo jsonDump
        writeErr outDir fmt rest
    | .error _ => transcribeLoop fs cwd model_size now terr mo jsonDump
        writeErr outDir fmt rest

/-- Model of `AudioTranscriber.batch_transcribe` (lines 206–253). -/
def batch_transcribe (fs : List Str) (cwd model_size now : Str)
    (terr : Str → Option Str) (mo : Str → ModelResult)
    (jsonDump : TransResult → Str) (writeErr : Str → Option Str)
    (listing : List Str) (audio_directory : Str) (outDirArg : Option Str)
    (fmt : Str) : Except PyErr (List Str) :=
  if ¬ pexists fs cwd audio_directory then
    .error (.fileNotFound (lit "Directory not found: " ++ audio_directory))
  else
    let output_directory := outDirArg.getD (pjoin audio_directory (lit "transcriptions"))
    let audio_files :=
      (listing.filter (matchesExt audio_extensions)).map (pjoin audio_directory)
    .ok (transcribeLoop fs cwd model_size now terr mo jsonDump writeErr
      output_directory fmt audio_files)

theorem convertLoop_filterMap (fs : List Str) (home cwd : Str)
    (orc : Str → ExtractOracle) (outDir fmt : Str) (files : List Str) :
    convertLoop fs home cwd orc outDir fmt files = files.filterMap (fun vf =>
      (extract_audio fs home cwd (orc vf) vf
        (some (pjoin outDir (stemOf vf ++ '.' :: fmt))) fmt).1.toOption) := by
  induction files with
  | nil => rfl
  | cons vf rest ih =>
    simp only [convertLoop, List.filterMap_cons]
    cases h : (extract_audio fs home cwd (orc vf) vf
        (some (pjoin outDir (stemOf vf ++ '.' :: fmt))) fmt).1 <;>
      simp [h, Except.toOption, ih]

theorem transcribeLoop_filterMap (fs : List Str) (cwd model_size now : Str)
    (terr : Str → Option Str) (mo : Str → ModelResult)
    (jsonDump : TransResult → Str) (writeErr : Str → Option Str)
    (outDir fmt : Str) (files : List Str) :
    transcribeLoop fs cwd model_size now terr mo jsonDump writeErr outDir fmt
        files =
      files.filterMap (fun af =>
        (transcribe_and_save fs cwd model_size now (terr af) (mo af) jsonDump
          (writeErr af) af
          (some (pjoin outDir (stemOf af ++ lit "_transcription." ++ fmt)))
          fmt).toOption) := by
  induction files with
  | nil => rfl
  | cons af rest ih =>
    simp only [transcribeLoop, List.filterMap_cons]
    cases h : transcribe_and_save fs cwd model_size now (terr af) (mo af)
        jsonDump (writeErr af) af
        (some (pjoin outDir (stemOf af ++ lit "_transcription." ++ fmt))) fmt <;>
      simp [h, Except.toOption, ih]

/-- Claim C2: batch processing tolerates per-file failures.  When the
directory exists, both batch calls return `.ok` of exactly the list of
per-file successes, in discovery order, each failing file silently
dropped (the per-file exception is caught by the loop, so the batch never
raises because of one); concretely, three matching files of which the
middle one fails yield exactly the two surviving output paths. -/
theorem batch_failure_tolerance (fs : List Str) (home cwd : Str)
    (orc : Str → ExtractOracle) (listing : List Str) (vdir : Str)
    (outDirArg : Option Str) (fmt : Str) (model_size now : Str)
    (terr : Str → Option Str) (mo : Str → ModelResult)
    (jsonDump : TransResult → Str) (writeErr : Str → Option Str)
    (adir : Str)
    (hv : pexists fs cwd vdir = true) (ha : pexists fs cwd adir = true) :
    (batch_convert fs home cwd orc listing vdir outDirArg fmt =
      .ok (((listing.filter (matchesExt video_extensions)).map (pjoin vdir)).filterMap
        (fun vf => (extract_audio fs home cwd (orc vf) vf
          (some (pjoin (outDirArg.getD vdir) (stemOf vf ++ '.' :: fmt)))
          fmt).1.toOption))) ∧
    (batch_transcribe fs cwd model_size now terr mo jsonDump writeErr listing
        adir outDirArg fmt =
      .ok (((listing.filter (matchesExt audio_extensions)).map (pjoin adir)).filterMap
        (fun af => (transcribe_and_save fs cwd model_size now (terr af) (mo af)
          jsonDump (writeErr af) af
          (some (pjoin (outDirArg.getD (pjoin adir (lit "transcriptions")))
            (stemOf af ++ lit "_transcription." ++ fmt)))
          fmt).toOption))) := by
  constructor
  · simp only [batch_convert, hv]
    rw [if_neg (by simp)]
    rw [convertLoop_filterMap]
  · simp only [batch_transcribe, ha]
    rw [if_neg (by simp)]
    rw [transcribeLoop_filterMap]

/-- Witness for `batch_failure_tolerance`, doubling as the spec's
three-file scenario: of three matching videos the middle extraction
fails, the batch returns exactly the other two output paths in order and
does not raise. -/
theorem batch_failure_tolerance_witness :
    batch_convert [lit "/v", lit "/v/a.mp4", lit "/v/b.mp4", lit "/v/c.mp4"]
        (lit "/h") (lit "/c")
        (fun vf => if vf = lit "/v/b.mp4" then ⟨none, some (lit "boom")⟩
          else ⟨none, none⟩)
        [lit "a.mp4", lit "b.mp4", lit "c.mp4"] (lit "/v") none (lit "mp3") =
      .ok [lit "/v/a.mp3", lit "/v/c.mp3"] := by
  have h := (batch_failure_tolerance [lit "/v", lit "/v/a.mp4", lit "/v/b.mp4",
      lit "/v/c.mp4"] (lit "/h") (lit "/c")
      (fun vf => if vf = lit "/v/b.mp4" then ⟨none, some (lit "boom")⟩
        else ⟨none, none⟩)
      [lit "a.mp4", lit "b.mp4", lit "c.mp4"] (lit "/v") none (lit "mp3")
      (lit "base") (lit "d") (fun _ => none)
      (fun _ => ⟨lit "hi", [], lit "en"⟩) (fun _ => lit "dump") (fun _ => none)
      (lit "/v") (by decide) (by decide)).1
  rw [h]
  decide

end VT
